import Mathlib

/-!
Shallow embedding of the `wikimedia-downloader` dump-acquisition pipeline.

Source files embedded directly:
  - `src/args.rs` (argument structures, `impl FromStr for VersionSpec`)
  - `src/commands/download.rs` (the `download` command's `main`, its
    per-file loop, summary counters and error context)

The repository's `types`, `operations`, `http` and `TempDir` modules are not
present under `src/`; definitions for those parts are modelled from the spec
and are marked with a doc comment starting `Modelled from the spec:`.

Machine integers (`u64` counters and byte lengths) are modelled as `Nat`:
the source counters count files and sum byte lengths, far below `2^64`,
and Rust debug builds abort on overflow rather than wrap.
-/

/-- Modelled from the spec: `types::Version` (module not under `src/`), an
opaque 8-digit-date identifier string, visible in `src/args.rs` as the tuple
struct constructor `Version(s.to_string())`. Equality is string equality. -/
structure Version where
  val : String
deriving DecidableEq, Repr

/-- Modelled from the spec: `types::VersionSpec` (module not under `src/`),
a tagged choice between resolving the latest version dynamically and an
exact version; the constructor names `Latest` and `Version` are visible in
`src/args.rs`. -/
inductive VersionSpec where
  | Latest : VersionSpec
  | Version : Version → VersionSpec
deriving DecidableEq, Repr

/-- Error kinds of the embedded fallible operations. `ValueValidation`
embeds `clap::error::ErrorKind::ValueValidation` raised in `src/args.rs`;
`MissingRequiredArgument` is clap's error for a required argument with no
default when neither the flag nor its environment variable is present. -/
inductive ArgError where
  | ValueValidation : ArgError
  | MissingRequiredArgument : ArgError
deriving DecidableEq, Repr

/-- Embeds `lazy_regex!(r"^\d{8}$").is_match(s)` from `src/args.rs`: the
anchored pattern holds exactly when the string is 8 digit characters.
(`Char.isDigit` covers the ASCII digits; the regex crate's `\d` also admits
non-ASCII Unicode decimal digits, which CLI version strings never contain.) -/
def versionRegexIsMatch (s : String) : Bool :=
  s.length = 8 && s.data.all Char.isDigit

/-- Embeds `impl FromStr for VersionSpec` in `src/args.rs` lines 85-102:
`"latest"` parses to `Latest`, an 8-digit string to `Version`, anything
else is a `ValueValidation` error. -/
def VersionSpec.from_str (s : String) : Except ArgError VersionSpec :=
  if s = "latest" then
    Except.ok VersionSpec.Latest
  else if versionRegexIsMatch s then
    Except.ok (VersionSpec.Version (Version.mk s))
  else
    Except.error ArgError.ValueValidation

/-- Modelled from the spec: `operations::FileMeta` (module not under
`src/`) — one listed file's relative URL fragment (field `url`, visible in
`src/commands/download.rs` as `file_meta.url`) and its expected byte
length. -/
structure FileMeta where
  url : String
  size : Nat
deriving DecidableEq, Repr

/-- Modelled from the spec: the metadata error kinds of spec section 7
raised by the `operations` module (not under `src/`). -/
inductive MetadataError where
  | MetadataUnavailable : MetadataError
  | NoVersionsFound : MetadataError
  | VersionNotFound : MetadataError
  | JobNotFound : MetadataError
deriving DecidableEq, Repr

/-- Modelled from the spec: the canonical metadata host named in the
`mirror_url` doc comment of `src/commands/download.rs`: metadata files are
always downloaded from `https://dumps.wikimedia.org`. -/
def canonicalHost : String := "https://dumps.wikimedia.org"

/-- Modelled from the spec: the canonical metadata source's answers, the
environment behind the metadata client. `latest` is the outcome of a
latest-version query for the dump; `listing` the manifest of (file name,
file meta) pairs for a resolved version. -/
structure Metadata where
  latest : Except MetadataError Version
  listing : Version → String → Except MetadataError (List (String × FileMeta))

/-- Modelled from the spec: version resolution (spec section 4.1) inside
`operations::get_file_infos` (module not under `src/`). An `Exact` spec is
returned unchanged with no metadata request; `Latest` issues exactly one
request to the canonical host. Returns the outcome and the list of request
URLs issued. -/
def resolve (md : Metadata) (dump : String) (spec : VersionSpec) :
    Except MetadataError Version × List String :=
  match spec with
  | VersionSpec.Version v => (Except.ok v, [])
  | VersionSpec.Latest => (md.latest, [canonicalHost ++ "/" ++ dump ++ "/"])

/-- Modelled from the spec: the file-name filter of spec section 4.2. When
a regex is present, only entries whose name fragment matches it are
retained, in listing order; absence retains all entries. The regex is
embedded as its match predicate on the name fragment. -/
def filterFiles (filter : Option (String → Bool))
    (files : List (String × FileMeta)) : List (String × FileMeta) :=
  match filter with
  | none => files
  | some m => files.filter (fun p => m p.1)

/-- Modelled from the spec: `operations::get_file_infos` (module not under
`src/`, called in `src/commands/download.rs` line 57): resolves the
version spec, retrieves the job's file manifest from the canonical host,
and applies the optional file-name filter. Returns the outcome and the
list of metadata request URLs issued. -/
def get_file_infos (md : Metadata) (dump : String) (spec : VersionSpec)
    (job : String) (filter : Option (String → Bool)) :
    Except MetadataError (Version × List (String × FileMeta)) × List String :=
  match resolve md dump spec with
  | (Except.error e, reqs) => (Except.error e, reqs)
  | (Except.ok ver, reqs) =>
    let listingUrl := canonicalHost ++ "/" ++ dump ++ "/" ++ ver.val ++ "/dumpstatus.json"
    match md.listing ver job with
    | Except.error e => (Except.error e, reqs ++ [listingUrl])
    | Except.ok files => (Except.ok (ver, filterFiles filter files), reqs ++ [listingUrl])

/-- The filesystem visible to the pipeline: a map from paths (as strings)
to the byte size of the regular file present there, `none` when absent. -/
def Fs : Type := String → Option Nat

/-- Set a file of size `n` at path `p`. -/
def Fs.set (fs : Fs) (p : String) (n : Nat) : Fs :=
  fun q => if q = p then some n else fs q

/-- Filesystem operations the downloader performs, kept as a trace so that
intermediate states are observable. `writeStaged p n` streams an `n`-byte
body to staging path `p`; `rename src dst` is the atomic rename consumed
from the filesystem interface (spec section 6): in one step `dst` receives
the file at `src` and `src` is removed. -/
inductive FsOp where
  | writeStaged : String → Nat → FsOp
  | rename : String → String → FsOp
deriving DecidableEq, Repr

/-- Semantics of one filesystem operation. -/
def applyOp (fs : Fs) : FsOp → Fs
  | FsOp.writeStaged p n => fs.set p n
  | FsOp.rename src dst =>
    fun q => if q = dst then fs src else if q = src then none else fs q

/-- Semantics of a sequence of filesystem operations. -/
def applyOps (fs : Fs) : List FsOp → Fs
  | [] => fs
  | op :: ops => applyOps (applyOp fs op) ops

/-- Modelled from the spec: the outcome of one HTTP GET for file bytes —
a complete body of `len` bytes, a non-success HTTP status, or a transport
error after `written` bytes were already streamed to the staging path. -/
inductive FetchResult where
  | ok : Nat → FetchResult
  | httpError : Nat → FetchResult
  | transportError : Nat → FetchResult
deriving DecidableEq, Repr

/-- Modelled from the spec: the `DownloadFailed` error of spec section 4.4,
carrying the identity of the file whose transfer failed. -/
inductive DownloadError where
  | DownloadFailed : String → DownloadError
deriving DecidableEq, Repr

/-- Embeds `operations::DownloadJobFileResultKind` (declared outside
`src/`; both variants are named in `src/commands/download.rs` lines
86-90). -/
inductive DownloadJobFileResultKind where
  | DownloadOk : DownloadJobFileResultKind
  | ExistingOk : DownloadJobFileResultKind
deriving DecidableEq, Repr

/-- The result of one `download_job_file` call, with the fields read in
`src/commands/download.rs` (`res.kind`, `res.len`). -/
structure DownloadJobFileResult where
  kind : DownloadJobFileResultKind
  len : Nat
deriving DecidableEq, Repr

/-- The final path of a job file, derived deterministically from the
output root, dump name, version and job name, mirroring the file's
relative name (documented in `src/args.rs`: out/enwiki/20230301/job/file). -/
def finalPath (outDir dump ver job url : String) : String :=
  outDir ++ "/" ++ dump ++ "/" ++ ver ++ "/" ++ job ++ "/" ++ url

/-- Modelled from the spec: the write target inside the staging directory
for a file (spec section 4.3, `path_for`). -/
def stagedPath (tempDirPath url : String) : String :=
  tempDirPath ++ "/" ++ url

/-- Modelled from the spec: the staging directory is a child of the output
root with a reserved name that cannot collide with dump output (spec
section 6). The model fixes one such name. -/
def tempDirPath (outDir : String) : String :=
  outDir ++ "/_tmp"

/-- What one `download_job_file` call produced: its result, the filesystem
operations it performed in order, and the HTTP request URLs it issued. -/
structure DlOut where
  res : Except DownloadError DownloadJobFileResult
  ops : List FsOp
  requests : List String
deriving Repr

/-- Modelled from the spec: `operations::download_job_file` (module not
under `src/`, called in `src/commands/download.rs` line 74), spec section
4.4. If the final path already holds a file of the expected size, return
`ExistingOk` with that size and no request. Otherwise fetch the file from
the mirror URL, stream the body to the staging path, and on success
atomically rename the staged file to the final path; a non-success status
or transport error yields `DownloadFailed` (a transport error may leave a
partial file at the staging path, never at the final path). -/
def download_job_file (fetch : String → FetchResult) (dump : String)
    (ver : Version) (job : String) (mirrorUrl : String) (file : FileMeta)
    (outDir : String) (tempDir : String) (fs : Fs) : DlOut :=
  let fp := finalPath outDir dump ver.val job file.url
  let existing := fs fp
  if existing = some file.size then
    { res := Except.ok { kind := DownloadJobFileResultKind.ExistingOk, len := file.size },
      ops := [], requests := [] }
  else
    let url := mirrorUrl ++ "/" ++ file.url
    let sp := stagedPath tempDir file.url
    match fetch url with
    | FetchResult.ok len =>
      { res := Except.ok { kind := DownloadJobFileResultKind.DownloadOk, len := len },
        ops := [FsOp.writeStaged sp len, FsOp.rename sp fp],
        requests := [url] }
    | FetchResult.httpError _ =>
      { res := Except.error (DownloadError.DownloadFailed file.url),
        ops := [], requests := [url] }
    | FetchResult.transportError written =>
      { res := Except.error (DownloadError.DownloadFailed file.url),
        ops := [FsOp.writeStaged sp written], requests := [url] }

/-- Modelled from the spec: disposal of the staging directory (spec
section 4.3, embedding `TempDir`'s drop behaviour): unless `keep` is set,
the directory and its contents are removed; with `keep` set everything is
left intact. -/
def TempDir.dispose (path : String) (keep : Bool) (fs : Fs) : Fs :=
  if keep then fs
  else fun q => if List.isPrefixOf path.data q.data then none else fs q

/-- Embeds the `download` command's argument structure from
`src/commands/download.rs` lines 13-46 together with the flattened
structures of `src/args.rs`. `mirror_url` is a plain `String` field with
no default value: clap treats it as required, read from `--mirror-url` or
the `WMD_MIRROR_URL` environment variable. The file-name regex is embedded
as its match predicate. -/
structure Args where
  out_dir : String
  dump_name : String
  version_spec : VersionSpec
  job_name : String
  file_name_regex : Option (String → Bool)
  keep_temp_dir : Bool
  mirror_url : String

/-- Modelled from the spec: clap's resolution of the required `mirror_url`
argument declared in `src/commands/download.rs` lines 33-46 — the flag
value if given, else the `WMD_MIRROR_URL` environment variable, else a
missing-required-argument error; there is no default. -/
def parseMirrorUrl (flag : Option String) (env : Option String) :
    Except ArgError String :=
  match flag with
  | some s => Except.ok s
  | none =>
    match env with
    | some s => Except.ok s
    | none => Except.error ArgError.MissingRequiredArgument

/-- The run's summary counters, embedding the four mutable `u64` counters
of `src/commands/download.rs` lines 67-70. -/
structure Summary where
  download_ok : Nat
  download_len : Nat
  existing_ok : Nat
  existing_len : Nat
deriving DecidableEq, Repr

/-- The initial summary: all four counters start at zero. -/
def Summary.init : Summary :=
  { download_ok := 0, download_len := 0, existing_ok := 0, existing_len := 0 }

/-- Embeds the `match res.kind` statement of `src/commands/download.rs`
lines 85-94: increment the matching counter and add `res.len` to the
matching total. -/
def foldOutcome (s : Summary) (r : DownloadJobFileResult) : Summary :=
  match r.kind with
  | DownloadJobFileResultKind.DownloadOk =>
    { s with download_ok := s.download_ok + 1, download_len := s.download_len + r.len }
  | DownloadJobFileResultKind.ExistingOk =>
    { s with existing_ok := s.existing_ok + 1, existing_len := s.existing_len + r.len }

/-- The errors `main` can return: a metadata error from `get_file_infos`,
or a download error wrapped with the context attached by `with_context` in
`src/commands/download.rs` lines 77-84 (dump name, version, job name and
file relative URL active when it occurred). -/
inductive RunError where
  | metadata : MetadataError → RunError
  | downloadFailed : String → Version → String → String → DownloadError → RunError
deriving DecidableEq, Repr

/-- Observable events of one run, in order: metadata requests, staging
directory creation, one `downloadCall` per `download_job_file` invocation
recording the version and mirror URL arguments passed and the file's
relative URL, the file-byte HTTP requests, the filesystem operations, the
staging directory disposal, and the final summary report (the
`tracing::info` call of `src/commands/download.rs` lines 101-108). -/
inductive Event where
  | metadataRequest : String → Event
  | createTempDir : String → Event
  | downloadCall : Version → String → String → Event
  | fileRequest : String → Event
  | fsOp : FsOp → Event
  | disposeTempDir : String → Bool → Event
  | reportSummary : Summary → Event
deriving DecidableEq, Repr

/-- What the per-file loop produced: its result, the filesystem reached,
its events in order, and the `DownloadJobFileResult` of each processed
file in order. -/
structure LoopOut where
  res : Except RunError Summary
  fs : Fs
  events : List Event
  outcomes : List DownloadJobFileResult

/-- Embeds the `for (_file_name, file_meta) in files.iter()` loop of
`src/commands/download.rs` lines 72-95: call `download_job_file` for each
file in listing order; on error stop at once and propagate it wrapped with
the (dump, version, job, file) context; on success fold the outcome into
the summary and continue with the next file. -/
def downloadLoop (fetch : String → FetchResult) (dump : String)
    (ver : Version) (job : String) (mirrorUrl : String) (outDir : String)
    (tempDir : String) :
    List (String × FileMeta) → Fs → Summary → LoopOut
  | [], fs, s => { res := Except.ok s, fs := fs, events := [], outcomes := [] }
  | (_, fm) :: rest, fs, s =>
    let dl := download_job_file fetch dump ver job mirrorUrl fm outDir tempDir fs
    let evs := Event.downloadCall ver mirrorUrl fm.url ::
      (dl.requests.map Event.fileRequest ++ dl.ops.map Event.fsOp)
    let fs1 := applyOps fs dl.ops
    match dl.res with
    | Except.error e =>
      { res := Except.error (RunError.downloadFailed dump ver job fm.url e),
        fs := fs1, events := evs, outcomes := [] }
    | Except.ok r =>
      let tail := downloadLoop fetch dump ver job mirrorUrl outDir tempDir
        rest fs1 (foldOutcome s r)
      { res := tail.res, fs := tail.fs, events := evs ++ tail.events,
        outcomes := r :: tail.outcomes }

/-- What one whole run produced: its result, the final filesystem, its
events in order, whether the staging directory still exists afterwards,
and the per-file outcomes. -/
structure RunOut where
  result : Except RunError Summary
  fs : Fs
  events : List Event
  tempDirExists : Bool
  outcomes : List DownloadJobFileResult

/-- Embeds `main` of `src/commands/download.rs` lines 49-111: resolve the
version and list the job's files through the canonical-host metadata
client, create the staging directory under the output root, download each
file sequentially through the mirror URL, dispose of the staging
directory (also when the loop aborted on an error), and report the final
summary only when every file succeeded. `md` stands for the canonical
metadata source behind the caching metadata client and `fetch` for the
download client's transfers. -/
def Download.main (md : Metadata) (fetch : String → FetchResult) (args : Args)
    (fs : Fs) : RunOut :=
  match get_file_infos md args.dump_name args.version_spec args.job_name
      args.file_name_regex with
  | (Except.error e, reqs) =>
    { result := Except.error (RunError.metadata e), fs := fs,
      events := reqs.map Event.metadataRequest, tempDirExists := false,
      outcomes := [] }
  | (Except.ok (ver, files), reqs) =>
    let tdp := tempDirPath args.out_dir
    let lp := downloadLoop fetch args.dump_name ver args.job_name
      args.mirror_url args.out_dir tdp files fs Summary.init
    let fsEnd := TempDir.dispose tdp args.keep_temp_dir lp.fs
    let tailEvents :=
      match lp.res with
      | Except.ok s =>
        [Event.disposeTempDir tdp args.keep_temp_dir, Event.reportSummary s]
      | Except.error _ => [Event.disposeTempDir tdp args.keep_temp_dir]
    { result := lp.res, fs := fsEnd,
      events := reqs.map Event.metadataRequest ++ [Event.createTempDir tdp]
        ++ lp.events ++ tailEvents,
      tempDirExists := args.keep_temp_dir, outcomes := lp.outcomes }

/-- One listed-file's outcome is a fresh download. -/
def DownloadJobFileResult.isDownload (r : DownloadJobFileResult) : Bool :=
  match r.kind with
  | DownloadJobFileResultKind.DownloadOk => true
  | DownloadJobFileResultKind.ExistingOk => false

/-- One listed-file's outcome is an idempotent skip. -/
def DownloadJobFileResult.isExisting (r : DownloadJobFileResult) : Bool :=
  match r.kind with
  | DownloadJobFileResultKind.DownloadOk => false
  | DownloadJobFileResultKind.ExistingOk => true

/-- A concrete metadata environment used by the witnesses: one dump whose
latest version is 20230301, with three listed files of sizes 100, 200 and
300 bytes. -/
def mdW : Metadata :=
  { latest := Except.ok (Version.mk "20230301"),
    listing := fun _ _ => Except.ok
      [("f1", FileMeta.mk "f1" 100), ("f2", FileMeta.mk "f2" 200),
       ("f3", FileMeta.mk "f3" 300)] }

/-- A concrete fetch environment for the witnesses: the mirror serves each
file at its expected size. -/
def fetchW : String → FetchResult := fun u =>
  if u = "https://m/f1" then FetchResult.ok 100
  else if u = "https://m/f2" then FetchResult.ok 200
  else if u = "https://m/f3" then FetchResult.ok 300
  else FetchResult.httpError 404

/-- A concrete fetch environment whose transfers always fail with HTTP
status 500. -/
def fetchFailW : String → FetchResult := fun _ => FetchResult.httpError 500

/-- Concrete arguments for the witnesses. -/
def argsW : Args :=
  { out_dir := "out", dump_name := "enwiki", version_spec := VersionSpec.Latest,
    job_name := "job", file_name_regex := none, keep_temp_dir := false,
    mirror_url := "https://m" }

/-- A concrete initial filesystem for the witnesses: file `f1` is already
complete at its final path, nothing else is present. -/
def fsW : Fs := fun q =>
  if q = finalPath "out" "enwiki" "20230301" "job" "f1" then some 100 else none

/-- The empty filesystem. -/
def fsEmptyW : Fs := fun _ => none

/-- C6: parsing a version-spec string succeeds with `Latest` exactly for
the string `"latest"`, succeeds with `Exact(Version(s))` exactly when `s`
is 8 decimal digits, fails with a validation error for every other
string; and resolution returns an `Exact` spec's version unchanged with
no network request. -/
theorem spec_c6_version_spec_parsing :
    (∀ s : String,
      VersionSpec.from_str s = Except.ok VersionSpec.Latest ↔ s = "latest") ∧
    (∀ s : String,
      VersionSpec.from_str s = Except.ok (VersionSpec.Version (Version.mk s)) ↔
        (s.length = 8 ∧ s.data.all Char.isDigit = true)) ∧
    (∀ s : String, s ≠ "latest" → ¬(s.length = 8 ∧ s.data.all Char.isDigit = true) →
      VersionSpec.from_str s = Except.error ArgError.ValueValidation) ∧
    (∀ (md : Metadata) (dump : String) (v : Version),
      resolve md dump (VersionSpec.Version v) = (Except.ok v, [])) := by
  have hregex : ∀ s : String,
      versionRegexIsMatch s = true ↔ (s.length = 8 ∧ s.data.all Char.isDigit = true) := by
    intro s
    unfold versionRegexIsMatch
    simp
  refine ⟨?_, ?_, ?_, ?_⟩
  · intro s
    by_cases hs : s = "latest"
    · subst hs
      simp [VersionSpec.from_str]
    · by_cases hm : versionRegexIsMatch s = true
      · simp [VersionSpec.from_str, hs, hm]
      · simp [VersionSpec.from_str, hs, hm]
  · intro s
    by_cases hs : s = "latest"
    · subst hs
      rw [show VersionSpec.from_str "latest" = Except.ok VersionSpec.Latest from rfl]
      constructor
      · intro h
        exact absurd h (by simp)
      · intro h
        exact absurd h.1 (by decide)
    · by_cases hm : versionRegexIsMatch s = true
      · simp only [VersionSpec.from_str, if_neg hs, if_pos hm]
        simp [(hregex s).mp hm]
      · simp only [VersionSpec.from_str, if_neg hs, if_neg hm]
        constructor
        · intro h
          exact absurd h (by simp)
        · intro h
          exact absurd ((hregex s).mpr h) hm
  · intro s h1 h2
    have h3 : ¬versionRegexIsMatch s = true := fun hm => h2 ((hregex s).mp hm)
    simp only [VersionSpec.from_str, if_neg h1, if_neg h3]
  · intro md dump v
    rfl

/-- Witness for C6 at concrete strings: `"2023x301"` is rejected with a
validation error and an exact spec resolves to itself with no request. -/
theorem spec_c6_version_spec_parsing_witness :
    VersionSpec.from_str "2023x301" = Except.error ArgError.ValueValidation ∧
    resolve { latest := Except.error MetadataError.NoVersionsFound,
              listing := fun _ _ => Except.error MetadataError.VersionNotFound }
      "enwiki" (VersionSpec.Version (Version.mk "20230301"))
      = (Except.ok (Version.mk "20230301"), []) :=
  ⟨spec_c6_version_spec_parsing.2.2.1 "2023x301" (by decide) (by decide),
   spec_c6_version_spec_parsing.2.2.2 _ "enwiki" (Version.mk "20230301")⟩

/-- C7: with a filter present, exactly the entries whose name fragment
matches are retained, in listing order (a sublist of the input); a filter
matching nothing yields the empty sequence and is not an error; with no
filter all entries are retained. -/
theorem spec_c7_filter_retains_matches :
    (∀ (m : String → Bool) (files : List (String × FileMeta)) (p : String × FileMeta),
      p ∈ filterFiles (some m) files ↔ p ∈ files ∧ m p.1 = true) ∧
    (∀ (m : String → Bool) (files : List (String × FileMeta)),
      List.Sublist (filterFiles (some m) files) files) ∧
    (∀ (m : String → Bool) (files : List (String × FileMeta)),
      (∀ p ∈ files, m p.1 = false) → filterFiles (some m) files = []) ∧
    (∀ files : List (String × FileMeta), filterFiles none files = files) := by
  refine ⟨?_, ?_, ?_, ?_⟩
  · intro m files p
    simp [filterFiles, List.mem_filter]
  · intro m files
    exact List.filter_sublist files
  · intro m files h
    simp only [filterFiles]
    rw [List.filter_eq_nil_iff]
    intro p hp
    simp [h p hp]
  · intro files
    rfl

/-- Witness for C7: the spec's example listing filtered by a pattern
matching names ending in `a.xml.bz2` keeps exactly that file, and a
nowhere-matching filter yields the empty sequence. -/
theorem spec_c7_filter_retains_matches_witness :
    filterFiles (some (fun s => List.isSuffixOf "a.xml.bz2".data s.data))
      [("a.xml.bz2", FileMeta.mk "a.xml.bz2" 1),
       ("a.xml.bz2.rss", FileMeta.mk "a.xml.bz2.rss" 2),
       ("b.xml.bz2", FileMeta.mk "b.xml.bz2" 3)]
      = [("a.xml.bz2", FileMeta.mk "a.xml.bz2" 1)] ∧
    filterFiles (some (fun _ => false))
      [("a", FileMeta.mk "a" 1), ("b", FileMeta.mk "b" 2)] = [] :=
  ⟨by decide,
   spec_c7_filter_retains_matches.2.2.1 (fun _ => false) _ (fun p _ => rfl)⟩

/-- Evaluation of `download_job_file` when the final path already holds a
file of the expected size: idempotent skip, no operations, no requests. -/
theorem download_job_file_existing (fetch : String → FetchResult)
    (dump : String) (ver : Version) (job : String) (mirrorUrl : String)
    (file : FileMeta) (outDir tempDir : String) (fs : Fs)
    (hex : fs (finalPath outDir dump ver.val job file.url) = some file.size) :
    download_job_file fetch dump ver job mirrorUrl file outDir tempDir fs =
      { res := Except.ok { kind := DownloadJobFileResultKind.ExistingOk, len := file.size },
        ops := [], requests := [] } := by
  unfold download_job_file
  simp [hex]

/-- Evaluation of `download_job_file` when the final path does not hold a
complete file and the fetch returns a full body. -/
theorem download_job_file_fetch_ok (fetch : String → FetchResult)
    (dump : String) (ver : Version) (job : String) (mirrorUrl : String)
    (file : FileMeta) (outDir tempDir : String) (fs : Fs) (len : Nat)
    (hex : fs (finalPath outDir dump ver.val job file.url) ≠ some file.size)
    (hf : fetch (mirrorUrl ++ "/" ++ file.url) = FetchResult.ok len) :
    download_job_file fetch dump ver job mirrorUrl file outDir tempDir fs =
      { res := Except.ok { kind := DownloadJobFileResultKind.DownloadOk, len := len },
        ops := [FsOp.writeStaged (stagedPath tempDir file.url) len,
                FsOp.rename (stagedPath tempDir file.url)
                  (finalPath outDir dump ver.val job file.url)],
        requests := [mirrorUrl ++ "/" ++ file.url] } := by
  unfold download_job_file
  simp [hex, hf]

/-- Evaluation of `download_job_file` on a non-success HTTP status. -/
theorem download_job_file_fetch_http_error (fetch : String → FetchResult)
    (dump : String) (ver : Version) (job : String) (mirrorUrl : String)
    (file : FileMeta) (outDir tempDir : String) (fs : Fs) (status : Nat)
    (hex : fs (finalPath outDir dump ver.val job file.url) ≠ some file.size)
    (hf : fetch (mirrorUrl ++ "/" ++ file.url) = FetchResult.httpError status) :
    download_job_file fetch dump ver job mirrorUrl file outDir tempDir fs =
      { res := Except.error (DownloadError.DownloadFailed file.url),
        ops := [], requests := [mirrorUrl ++ "/" ++ file.url] } := by
  unfold download_job_file
  simp [hex, hf]

/-- Evaluation of `download_job_file` on a transport error after `written`
bytes were streamed to the staging path. -/
theorem download_job_file_fetch_transport_error (fetch : String → FetchResult)
    (dump : String) (ver : Version) (job : String) (mirrorUrl : String)
    (file : FileMeta) (outDir tempDir : String) (fs : Fs) (written : Nat)
    (hex : fs (finalPath outDir dump ver.val job file.url) ≠ some file.size)
    (hf : fetch (mirrorUrl ++ "/" ++ file.url) = FetchResult.transportError written) :
    download_job_file fetch dump ver job mirrorUrl file outDir tempDir fs =
      { res := Except.error (DownloadError.DownloadFailed file.url),
        ops := [FsOp.writeStaged (stagedPath tempDir file.url) written],
        requests := [mirrorUrl ++ "/" ++ file.url] } := by
  unfold download_job_file
  simp [hex, hf]

/-- Applying a staged write followed by the atomic rename: the destination
receives the written size, the source is gone, everything else is
untouched. -/
theorem applyOps_write_rename (fs : Fs) (sp fp : String) (n : Nat) :
    applyOps fs [FsOp.writeStaged sp n, FsOp.rename sp fp] =
      fun q => if q = fp then some n else if q = sp then none else fs q := by
  funext q
  by_cases h1 : q = fp
  · subst h1
    simp [applyOps, applyOp, Fs.set]
  · by_cases h2 : q = sp
    · subst h2
      simp [applyOps, applyOp, Fs.set, h1]
    · simp [applyOps, applyOp, Fs.set, h1, h2]

/-- C1: a file never becomes visible at its final path in a partially
written state. On a non-success HTTP status or transport error,
`download_job_file` fails with `DownloadFailed` and the final path is
exactly as it was before the call; on a fresh successful download the
staged file is promoted by a single atomic rename (the staging path is
emptied, not copied from); and after any prefix of the call's filesystem
operations the final path holds either its prior content or the complete
downloaded file — never an intermediate write. -/
theorem spec_c1_atomic_promotion (fetch : String → FetchResult)
    (dump : String) (ver : Version) (job : String) (mirrorUrl : String)
    (file : FileMeta) (outDir tempDir : String) (fs : Fs)
    (hne : stagedPath tempDir file.url ≠ finalPath outDir dump ver.val job file.url) :
    (∀ e, (download_job_file fetch dump ver job mirrorUrl file outDir tempDir fs).res
        = Except.error e →
      e = DownloadError.DownloadFailed file.url ∧
      applyOps fs (download_job_file fetch dump ver job mirrorUrl file outDir tempDir fs).ops
          (finalPath outDir dump ver.val job file.url)
        = fs (finalPath outDir dump ver.val job file.url)) ∧
    (∀ r, (download_job_file fetch dump ver job mirrorUrl file outDir tempDir fs).res
        = Except.ok r →
      r.kind = DownloadJobFileResultKind.DownloadOk →
      (download_job_file fetch dump ver job mirrorUrl file outDir tempDir fs).ops
        = [FsOp.writeStaged (stagedPath tempDir file.url) r.len,
           FsOp.rename (stagedPath tempDir file.url)
             (finalPath outDir dump ver.val job file.url)] ∧
      applyOps fs (download_job_file fetch dump ver job mirrorUrl file outDir tempDir fs).ops
          (finalPath outDir dump ver.val job file.url) = some r.len ∧
      applyOps fs (download_job_file fetch dump ver job mirrorUrl file outDir tempDir fs).ops
          (stagedPath tempDir file.url) = none) ∧
    (∀ n, applyOps fs
        ((download_job_file fetch dump ver job mirrorUrl file outDir tempDir fs).ops.take n)
        (finalPath outDir dump ver.val job file.url)
          = fs (finalPath outDir dump ver.val job file.url) ∨
      ∃ r, (download_job_file fetch dump ver job mirrorUrl file outDir tempDir fs).res
          = Except.ok r ∧
        applyOps fs
          ((download_job_file fetch dump ver job mirrorUrl file outDir tempDir fs).ops.take n)
          (finalPath outDir dump ver.val job file.url) = some r.len) := by
  have hne' : finalPath outDir dump ver.val job file.url ≠ stagedPath tempDir file.url :=
    Ne.symm hne
  by_cases hex : fs (finalPath outDir dump ver.val job file.url) = some file.size
  · rw [download_job_file_existing fetch dump ver job mirrorUrl file outDir tempDir fs hex]
    refine ⟨?_, ?_, ?_⟩
    · intro e he
      exact absurd he (by simp)
    · intro r hr hk
      have : r = { kind := DownloadJobFileResultKind.ExistingOk, len := file.size } := by
        injection hr with h
        exact h.symm
      rw [this] at hk
      exact absurd hk (by simp)
    · intro n
      left
      simp [applyOps]
  · cases hf : fetch (mirrorUrl ++ "/" ++ file.url) with
    | ok len =>
      rw [download_job_file_fetch_ok fetch dump ver job mirrorUrl file outDir tempDir fs len
        hex hf]
      refine ⟨?_, ?_, ?_⟩
      · intro e he
        exact absurd he (by simp)
      · intro r hr hk
        have hrr : r = { kind := DownloadJobFileResultKind.DownloadOk, len := len } := by
          injection hr with h
          exact h.symm
        subst hrr
        refine ⟨rfl, ?_, ?_⟩
        · rw [applyOps_write_rename]
          simp
        · rw [applyOps_write_rename]
          simp [hne]
      · intro n
        rcases n with _ | (_ | n)
        · left
          simp [applyOps]
        · left
          simp [applyOps, applyOp, Fs.set, List.take, hne']
        · right
          refine ⟨{ kind := DownloadJobFileResultKind.DownloadOk, len := len }, rfl, ?_⟩
          simp only [List.take, List.take_nil]
          rw [applyOps_write_rename]
          simp
    | httpError status =>
      rw [download_job_file_fetch_http_error fetch dump ver job mirrorUrl file outDir tempDir
        fs status hex hf]
      refine ⟨?_, ?_, ?_⟩
      · intro e he
        have : e = DownloadError.DownloadFailed file.url := by
          injection he with h
          exact h.symm
        exact ⟨this, rfl⟩
      · intro r hr hk
        exact absurd hr (by simp)
      · intro n
        left
        simp [applyOps]
    | transportError written =>
      rw [download_job_file_fetch_transport_error fetch dump ver job mirrorUrl file outDir
        tempDir fs written hex hf]
      refine ⟨?_, ?_, ?_⟩
      · intro e he
        have : e = DownloadError.DownloadFailed file.url := by
          injection he with h
          exact h.symm
        refine ⟨this, ?_⟩
        simp [applyOps, applyOp, Fs.set, hne']
      · intro r hr hk
        exact absurd hr (by simp)
      · intro n
        rcases n with _ | n
        · left
          simp [applyOps]
        · left
          simp [applyOps, applyOp, Fs.set, List.take, hne']

/-- Witness for C1: a transport error after 5 bytes on an empty
filesystem leaves the final path absent, exactly as before the call. -/
theorem spec_c1_atomic_promotion_witness :
    applyOps (fun _ => none)
      (download_job_file (fun _ => FetchResult.transportError 5) "enwiki"
        (Version.mk "20230301") "job" "https://m" (FileMeta.mk "f1" 10)
        "out" "out/_tmp" (fun _ => none)).ops
      (finalPath "out" "enwiki" "20230301" "job" "f1")
      = (fun _ => (none : Option Nat)) (finalPath "out" "enwiki" "20230301" "job" "f1") :=
  ((spec_c1_atomic_promotion (fun _ => FetchResult.transportError 5) "enwiki"
      (Version.mk "20230301") "job" "https://m" (FileMeta.mk "f1" 10)
      "out" "out/_tmp" (fun _ => none) (by decide)).1
    (DownloadError.DownloadFailed "f1") rfl).2

/-- Recognizer for download-invocation events. -/
def Event.isDownloadCall : Event → Bool
  | Event.downloadCall _ _ _ => true
  | _ => false

/-- Recognizer for file-byte HTTP request events. -/
def Event.isFileRequest : Event → Bool
  | Event.fileRequest _ => true
  | _ => false

/-- Recognizer for metadata HTTP request events. -/
def Event.isMetadataRequest : Event → Bool
  | Event.metadataRequest _ => true
  | _ => false

/-- Recognizer for staging-directory disposal events. -/
def Event.isDispose : Event → Bool
  | Event.disposeTempDir _ _ => true
  | _ => false

/-- Recognizer for summary-report events. -/
def Event.isReport : Event → Bool
  | Event.reportSummary _ => true
  | _ => false

/-- Every HTTP request a `download_job_file` call issues is the mirror URL
with the file's relative fragment appended. -/
theorem download_job_file_requests (fetch : String → FetchResult)
    (dump : String) (ver : Version) (job : String) (mirrorUrl : String)
    (file : FileMeta) (outDir tempDir : String) (fs : Fs) :
    ∀ u ∈ (download_job_file fetch dump ver job mirrorUrl file outDir tempDir fs).requests,
      u = mirrorUrl ++ "/" ++ file.url := by
  intro u hu
  unfold download_job_file at hu
  dsimp only at hu
  split at hu
  · simp at hu
  · split at hu <;> simpa using hu

/-- Every event the per-file loop emits is a download invocation carrying
the loop's version and mirror URL, a file request to the mirror, or a
filesystem operation — never a metadata request, staging creation or
disposal, or a summary report. -/
theorem downloadLoop_events_mem (fetch : String → FetchResult) (dump : String)
    (ver : Version) (job : String) (mirrorUrl outDir tempDir : String) :
    ∀ (files : List (String × FileMeta)) (fs : Fs) (s : Summary) (e : Event),
      e ∈ (downloadLoop fetch dump ver job mirrorUrl outDir tempDir files fs s).events →
      (∃ u, e = Event.downloadCall ver mirrorUrl u) ∨
      (∃ frag, e = Event.fileRequest (mirrorUrl ++ "/" ++ frag)) ∨
      (∃ op, e = Event.fsOp op) := by
  intro files
  induction files with
  | nil =>
    intro fs s e he
    simp [downloadLoop] at he
  | cons hd tl ih =>
    intro fs s e he
    obtain ⟨name, fm⟩ := hd
    have hblock : ∀ e2 : Event,
        e2 ∈ Event.downloadCall ver mirrorUrl fm.url ::
          ((download_job_file fetch dump ver job mirrorUrl fm outDir tempDir fs).requests.map
              Event.fileRequest ++
            (download_job_file fetch dump ver job mirrorUrl fm outDir tempDir fs).ops.map
              Event.fsOp) →
        (∃ u, e2 = Event.downloadCall ver mirrorUrl u) ∨
        (∃ frag, e2 = Event.fileRequest (mirrorUrl ++ "/" ++ frag)) ∨
        (∃ op, e2 = Event.fsOp op) := by
      intro e2 he2
      rcases List.mem_cons.mp he2 with h | h
      · exact Or.inl ⟨fm.url, h⟩
      · rcases List.mem_append.mp h with h | h
        · obtain ⟨u, hu, rfl⟩ := List.mem_map.mp h
          refine Or.inr (Or.inl ⟨fm.url, ?_⟩)
          rw [download_job_file_requests fetch dump ver job mirrorUrl fm outDir tempDir fs u hu]
        · obtain ⟨op, hop, rfl⟩ := List.mem_map.mp h
          exact Or.inr (Or.inr ⟨op, rfl⟩)
    simp only [downloadLoop] at he
    cases hres : (download_job_file fetch dump ver job mirrorUrl fm outDir tempDir fs).res with
    | error e0 =>
      rw [hres] at he
      exact hblock e he
    | ok r =>
      rw [hres] at he
      rcases List.mem_append.mp he with h | h
      · exact hblock e h
      · exact ih _ _ e h

/-- File requests are not download-invocation events. -/
theorem filter_isDownloadCall_map_fileRequest (us : List String) :
    (us.map Event.fileRequest).filter Event.isDownloadCall = [] := by
  rw [List.filter_eq_nil_iff]
  intro e he
  obtain ⟨u, _, rfl⟩ := List.mem_map.mp he
  simp [Event.isDownloadCall]

/-- Filesystem-operation events are not download-invocation events. -/
theorem filter_isDownloadCall_map_fsOp (ops : List FsOp) :
    (ops.map Event.fsOp).filter Event.isDownloadCall = [] := by
  rw [List.filter_eq_nil_iff]
  intro e he
  obtain ⟨op, _, rfl⟩ := List.mem_map.mp he
  simp [Event.isDownloadCall]

/-- The download-invocation events of one per-file block are exactly its
leading `downloadCall`. -/
theorem filter_isDownloadCall_block (v : Version) (m u : String)
    (reqs : List String) (ops : List FsOp) :
    (Event.downloadCall v m u ::
        (reqs.map Event.fileRequest ++ ops.map Event.fsOp)).filter
      Event.isDownloadCall = [Event.downloadCall v m u] := by
  rw [List.filter_cons_of_pos (by rfl), List.filter_append,
    filter_isDownloadCall_map_fileRequest, filter_isDownloadCall_map_fsOp]
  rfl

/-- A successful per-file loop folded every file's outcome into the
summary, produced one outcome per listed file, and invoked the downloader
once per file in listing order. -/
theorem downloadLoop_ok_shape (fetch : String → FetchResult) (dump : String)
    (ver : Version) (job : String) (mirrorUrl outDir tempDir : String) :
    ∀ (files : List (String × FileMeta)) (fs : Fs) (s s2 : Summary),
      (downloadLoop fetch dump ver job mirrorUrl outDir tempDir files fs s).res
        = Except.ok s2 →
      s2 = (downloadLoop fetch dump ver job mirrorUrl outDir tempDir files fs s).outcomes.foldl
          foldOutcome s ∧
      (downloadLoop fetch dump ver job mirrorUrl outDir tempDir files fs s).outcomes.length
        = files.length ∧
      (downloadLoop fetch dump ver job mirrorUrl outDir tempDir files fs s).events.filter
          Event.isDownloadCall
        = files.map (fun p => Event.downloadCall ver mirrorUrl p.2.url) := by
  intro files
  induction files with
  | nil =>
    intro fs s s2 h
    have hs : s = s2 := by
      simpa [downloadLoop] using h
    subst hs
    simp [downloadLoop, List.foldl]
  | cons hd tl ih =>
    intro fs s s2 h
    obtain ⟨name, fm⟩ := hd
    simp only [downloadLoop] at h ⊢
    cases hres : (download_job_file fetch dump ver job mirrorUrl fm outDir tempDir fs).res with
    | error e0 =>
      rw [hres] at h
      dsimp only at h
      exact absurd h (by simp)
    | ok r =>
      rw [hres] at h
      dsimp only at h ⊢
      obtain ⟨h1, h2, h3⟩ := ih
        (applyOps fs (download_job_file fetch dump ver job mirrorUrl fm outDir tempDir fs).ops)
        (foldOutcome s r) s2 h
      refine ⟨?_, ?_, ?_⟩
      · simpa [List.foldl_cons] using h1
      · simpa using h2
      · rw [List.filter_append, filter_isDownloadCall_block, h3]
        simp

/-- An aborted per-file loop failed at some file `k`, wrapped the cause
with the loop's dump, version, job and that file's identity, and invoked
the downloader exactly once per file up to and including file `k`, in
listing order. -/
theorem downloadLoop_error_shape (fetch : String → FetchResult) (dump : String)
    (ver : Version) (job : String) (mirrorUrl outDir tempDir : String) :
    ∀ (files : List (String × FileMeta)) (fs : Fs) (s : Summary) (e : RunError),
      (downloadLoop fetch dump ver job mirrorUrl outDir tempDir files fs s).res
        = Except.error e →
      ∃ k, ∃ hk : k < files.length, ∃ cause,
        e = RunError.downloadFailed dump ver job ((files.get ⟨k, hk⟩).2.url) cause ∧
        (downloadLoop fetch dump ver job mirrorUrl outDir tempDir files fs s).events.filter
            Event.isDownloadCall
          = (files.take (k + 1)).map (fun p => Event.downloadCall ver mirrorUrl p.2.url) := by
  intro files
  induction files with
  | nil =>
    intro fs s e h
    exact absurd h (by simp [downloadLoop])
  | cons hd tl ih =>
    intro fs s e h
    obtain ⟨name, fm⟩ := hd
    simp only [downloadLoop] at h ⊢
    cases hres : (download_job_file fetch dump ver job mirrorUrl fm outDir tempDir fs).res with
    | error e0 =>
      rw [hres] at h
      dsimp only at h ⊢
      have he : e = RunError.downloadFailed dump ver job fm.url e0 := by
        injection h with h2
        exact h2.symm
      refine ⟨0, by simp, e0, ?_, ?_⟩
      · simpa using he
      · rw [filter_isDownloadCall_block]
        simp [List.take]
    | ok r =>
      rw [hres] at h
      dsimp only at h ⊢
      obtain ⟨k, hk, cause, he, hcalls⟩ := ih
        (applyOps fs (download_job_file fetch dump ver job mirrorUrl fm outDir tempDir fs).ops)
        (foldOutcome s r) e h
      refine ⟨k + 1, by simpa using Nat.succ_lt_succ hk, cause, ?_, ?_⟩
      · simpa using he
      · rw [List.filter_append, filter_isDownloadCall_block, hcalls]
        simp [List.take]

/-- Unfolding of `Download.main` when listing fails: the metadata error is
returned, only metadata requests were made, and nothing was staged. -/
theorem main_eq_of_listing_error (md : Metadata) (fetch : String → FetchResult)
    (args : Args) (fs : Fs) (e : MetadataError) (reqs : List String)
    (hg : get_file_infos md args.dump_name args.version_spec args.job_name
      args.file_name_regex = (Except.error e, reqs)) :
    Download.main md fetch args fs =
      { result := Except.error (RunError.metadata e), fs := fs,
        events := reqs.map Event.metadataRequest, tempDirExists := false,
        outcomes := [] } := by
  unfold Download.main
  rw [hg]

/-- Unfolding of `Download.main` when listing succeeds, in terms of the
per-file loop. -/
theorem main_eq_of_listing_ok (md : Metadata) (fetch : String → FetchResult)
    (args : Args) (fs : Fs) (ver : Version) (files : List (String × FileMeta))
    (reqs : List String)
    (hg : get_file_infos md args.dump_name args.version_spec args.job_name
      args.file_name_regex = (Except.ok (ver, files), reqs)) :
    Download.main md fetch args fs =
      { result := (downloadLoop fetch args.dump_name ver args.job_name
          args.mirror_url args.out_dir (tempDirPath args.out_dir) files fs
          Summary.init).res,
        fs := TempDir.dispose (tempDirPath args.out_dir) args.keep_temp_dir
          (downloadLoop fetch args.dump_name ver args.job_name args.mirror_url
            args.out_dir (tempDirPath args.out_dir) files fs Summary.init).fs,
        events := reqs.map Event.metadataRequest
          ++ [Event.createTempDir (tempDirPath args.out_dir)]
          ++ (downloadLoop fetch args.dump_name ver args.job_name args.mirror_url
              args.out_dir (tempDirPath args.out_dir) files fs Summary.init).events
          ++ (match (downloadLoop fetch args.dump_name ver args.job_name
                args.mirror_url args.out_dir (tempDirPath args.out_dir) files fs
                Summary.init).res with
              | Except.ok s =>
                [Event.disposeTempDir (tempDirPath args.out_dir) args.keep_temp_dir,
                 Event.reportSummary s]
              | Except.error _ =>
                [Event.disposeTempDir (tempDirPath args.out_dir) args.keep_temp_dir]),
        tempDirExists := args.keep_temp_dir,
        outcomes := (downloadLoop fetch args.dump_name ver args.job_name
          args.mirror_url args.out_dir (tempDirPath args.out_dir) files fs
          Summary.init).outcomes } := by
  unfold Download.main
  rw [hg]

/-- The summary fold counts each outcome once in the matching counter and
adds its byte length to the matching total. -/
theorem foldl_foldOutcome_shape (rs : List DownloadJobFileResult) :
    ∀ a : Summary,
      (rs.foldl foldOutcome a).download_ok
          = a.download_ok + (rs.filter DownloadJobFileResult.isDownload).length ∧
      (rs.foldl foldOutcome a).download_len
          = a.download_len
            + ((rs.filter DownloadJobFileResult.isDownload).map (fun r => r.len)).sum ∧
      (rs.foldl foldOutcome a).existing_ok
          = a.existing_ok + (rs.filter DownloadJobFileResult.isExisting).length ∧
      (rs.foldl foldOutcome a).existing_len
          = a.existing_len
            + ((rs.filter DownloadJobFileResult.isExisting).map (fun r => r.len)).sum := by
  induction rs with
  | nil =>
    intro a
    simp
  | cons r rs ih =>
    intro a
    obtain ⟨kind, len⟩ := r
    cases kind with
    | DownloadOk =>
      obtain ⟨h1, h2, h3, h4⟩ := ih
        { download_ok := a.download_ok + 1, download_len := a.download_len + len,
          existing_ok := a.existing_ok, existing_len := a.existing_len }
      refine ⟨?_, ?_, ?_, ?_⟩ <;>
        simp [List.foldl_cons, h1, h2, h3, h4, foldOutcome,
          DownloadJobFileResult.isDownload, DownloadJobFileResult.isExisting] <;>
        omega
    | ExistingOk =>
      obtain ⟨h1, h2, h3, h4⟩ := ih
        { download_ok := a.download_ok, download_len := a.download_len,
          existing_ok := a.existing_ok + 1, existing_len := a.existing_len + len }
      refine ⟨?_, ?_, ?_, ?_⟩ <;>
        simp [List.foldl_cons, h1, h2, h3, h4, foldOutcome,
          DownloadJobFileResult.isDownload, DownloadJobFileResult.isExisting] <;>
        omega

/-- Every outcome is counted by exactly one of the two counters. -/
theorem filter_outcomes_partition (rs : List DownloadJobFileResult) :
    (rs.filter DownloadJobFileResult.isDownload).length
      + (rs.filter DownloadJobFileResult.isExisting).length = rs.length := by
  induction rs with
  | nil => rfl
  | cons r rs ih =>
    obtain ⟨kind, len⟩ := r
    cases kind <;>
      simp [DownloadJobFileResult.isDownload, DownloadJobFileResult.isExisting] <;>
      omega

/-- C3: on a run that completes without error, `download_ok` is the number
of `DownloadOk` outcomes, `download_len` the sum of their byte lengths,
`existing_ok` the number of `ExistingOk` outcomes, `existing_len` the sum
of theirs, every processed file is counted by exactly one of the two
counter/total pairs, and exactly this summary is reported. -/
theorem spec_c3_summary_totals (md : Metadata) (fetch : String → FetchResult)
    (args : Args) (fs : Fs) (s2 : Summary)
    (h : (Download.main md fetch args fs).result = Except.ok s2) :
    s2.download_ok = ((Download.main md fetch args fs).outcomes.filter
        DownloadJobFileResult.isDownload).length ∧
    s2.download_len = (((Download.main md fetch args fs).outcomes.filter
        DownloadJobFileResult.isDownload).map (fun r => r.len)).sum ∧
    s2.existing_ok = ((Download.main md fetch args fs).outcomes.filter
        DownloadJobFileResult.isExisting).length ∧
    s2.existing_len = (((Download.main md fetch args fs).outcomes.filter
        DownloadJobFileResult.isExisting).map (fun r => r.len)).sum ∧
    ((Download.main md fetch args fs).outcomes.filter
        DownloadJobFileResult.isDownload).length
      + ((Download.main md fetch args fs).outcomes.filter
          DownloadJobFileResult.isExisting).length
      = (Download.main md fetch args fs).outcomes.length ∧
    Event.reportSummary s2 ∈ (Download.main md fetch args fs).events := by
  rcases hg : get_file_infos md args.dump_name args.version_spec args.job_name
    args.file_name_regex with ⟨gr, reqs⟩
  cases gr with
  | error e =>
    rw [main_eq_of_listing_error md fetch args fs e reqs hg] at h
    exact absurd h (by simp)
  | ok vf =>
    obtain ⟨ver, files⟩ := vf
    rw [main_eq_of_listing_ok md fetch args fs ver files reqs hg] at h ⊢
    dsimp only at h ⊢
    obtain ⟨h1, _, _⟩ := downloadLoop_ok_shape fetch args.dump_name ver args.job_name
      args.mirror_url args.out_dir (tempDirPath args.out_dir) files fs Summary.init s2 h
    obtain ⟨e1, e2, e3, e4⟩ := foldl_foldOutcome_shape
      (downloadLoop fetch args.dump_name ver args.job_name args.mirror_url
        args.out_dir (tempDirPath args.out_dir) files fs Summary.init).outcomes
      Summary.init
    refine ⟨?_, ?_, ?_, ?_, ?_, ?_⟩
    · rw [h1, e1]
      simp [Summary.init]
    · rw [h1, e2]
      simp [Summary.init]
    · rw [h1, e3]
      simp [Summary.init]
    · rw [h1, e4]
      simp [Summary.init]
    · exact filter_outcomes_partition _
    · rw [h]
      simp

/-- Witness for C3: in a run over three files where `f1` (100 bytes) is
already present and `f2`, `f3` (200 and 300 bytes) are freshly
downloaded, the reported summary has `download_ok = 2`,
`download_len = 500`, `existing_ok = 1`, `existing_len = 100`. -/
theorem spec_c3_summary_totals_witness :
    (Summary.mk 2 500 1 100).download_ok
      = ((Download.main mdW fetchW argsW fsW).outcomes.filter
          DownloadJobFileResult.isDownload).length :=
  (spec_c3_summary_totals mdW fetchW argsW fsW (Summary.mk 2 500 1 100) rfl).1

/-- Metadata requests are not download-invocation events. -/
theorem filter_isDownloadCall_map_metadataRequest (us : List String) :
    (us.map Event.metadataRequest).filter Event.isDownloadCall = [] := by
  rw [List.filter_eq_nil_iff]
  intro e he
  obtain ⟨u, _, rfl⟩ := List.mem_map.mp he
  simp [Event.isDownloadCall]

/-- The per-file loop never emits a summary-report event. -/
theorem downloadLoop_filter_isReport (fetch : String → FetchResult)
    (dump : String) (ver : Version) (job : String)
    (mirrorUrl outDir tempDir : String) (files : List (String × FileMeta))
    (fs : Fs) (s : Summary) :
    (downloadLoop fetch dump ver job mirrorUrl outDir tempDir files fs s).events.filter
      Event.isReport = [] := by
  rw [List.filter_eq_nil_iff]
  intro e he
  rcases downloadLoop_events_mem fetch dump ver job mirrorUrl outDir tempDir
      files fs s e he with ⟨u, rfl⟩ | ⟨frag, rfl⟩ | ⟨op, rfl⟩ <;>
    simp [Event.isReport]

/-- The per-file loop never emits a staging-disposal event. -/
theorem downloadLoop_filter_isDispose (fetch : String → FetchResult)
    (dump : String) (ver : Version) (job : String)
    (mirrorUrl outDir tempDir : String) (files : List (String × FileMeta))
    (fs : Fs) (s : Summary) :
    (downloadLoop fetch dump ver job mirrorUrl outDir tempDir files fs s).events.filter
      Event.isDispose = [] := by
  rw [List.filter_eq_nil_iff]
  intro e he
  rcases downloadLoop_events_mem fetch dump ver job mirrorUrl outDir tempDir
      files fs s e he with ⟨u, rfl⟩ | ⟨frag, rfl⟩ | ⟨op, rfl⟩ <;>
    simp [Event.isDispose]

/-- C4: when listing succeeded and the run returns an error, the failure
happened at some file `k` of the listing and carries the active dump name,
resolved version, job name and that file's identity; the downloader was
invoked exactly once per file up to and including file `k`, in listing
order — no later file was processed and the failed file was not retried —
and no final summary was reported. -/
theorem spec_c4_abort_on_failure (md : Metadata) (fetch : String → FetchResult)
    (args : Args) (fs : Fs) (ver : Version) (files : List (String × FileMeta))
    (reqs : List String) (e : RunError)
    (hg : get_file_infos md args.dump_name args.version_spec args.job_name
      args.file_name_regex = (Except.ok (ver, files), reqs))
    (herr : (Download.main md fetch args fs).result = Except.error e) :
    ∃ k, ∃ hk : k < files.length, ∃ cause,
      e = RunError.downloadFailed args.dump_name ver args.job_name
        ((files.get ⟨k, hk⟩).2.url) cause ∧
      (Download.main md fetch args fs).events.filter Event.isDownloadCall
        = (files.take (k + 1)).map
            (fun p => Event.downloadCall ver args.mirror_url p.2.url) ∧
      (Download.main md fetch args fs).events.filter Event.isReport = [] := by
  rw [main_eq_of_listing_ok md fetch args fs ver files reqs hg] at herr ⊢
  dsimp only at herr ⊢
  obtain ⟨k, hk, cause, he, hcalls⟩ := downloadLoop_error_shape fetch args.dump_name
    ver args.job_name args.mirror_url args.out_dir (tempDirPath args.out_dir)
    files fs Summary.init e herr
  refine ⟨k, hk, cause, he, ?_, ?_⟩
  · rw [herr]
    dsimp only
    rw [List.filter_append, List.filter_append, List.filter_append,
      filter_isDownloadCall_map_metadataRequest, hcalls]
    simp [Event.isDownloadCall]
  · rw [herr]
    dsimp only
    rw [List.filter_append, List.filter_append, List.filter_append,
      downloadLoop_filter_isReport]
    have hmd : (reqs.map Event.metadataRequest).filter Event.isReport = [] := by
      rw [List.filter_eq_nil_iff]
      intro ev hev
      obtain ⟨u, _, rfl⟩ := List.mem_map.mp hev
      simp [Event.isReport]
    rw [hmd]
    simp [Event.isReport]

/-- Witness for C4: with every transfer failing with HTTP 500, the run
over the three-file listing reports no final summary. -/
theorem spec_c4_abort_on_failure_witness :
    (Download.main mdW fetchFailW argsW fsEmptyW).events.filter Event.isReport = [] := by
  obtain ⟨k, hk, cause, he, hcalls, hrep⟩ :=
    spec_c4_abort_on_failure mdW fetchFailW argsW fsEmptyW _ _ _ _ rfl rfl
  exact hrep

/-- C9: when listing succeeded, the one resolved version is the version
argument of every downloader invocation of the run; the downloader is
invoked once per file, in listing order, for a prefix of the listing
(the whole listing when the run succeeds, so each file's download
completes before the next begins); and every metadata request of the run
— including version resolution — happens in the initial metadata phase,
before any download, never again afterwards. -/
theorem spec_c9_resolve_once_sequential (md : Metadata)
    (fetch : String → FetchResult) (args : Args) (fs : Fs) (ver : Version)
    (files : List (String × FileMeta)) (reqs : List String)
    (hg : get_file_infos md args.dump_name args.version_spec args.job_name
      args.file_name_regex = (Except.ok (ver, files), reqs)) :
    (∃ k, k ≤ files.length ∧
      (Download.main md fetch args fs).events.filter Event.isDownloadCall
        = (files.take k).map (fun p => Event.downloadCall ver args.mirror_url p.2.url) ∧
      (∀ s2, (Download.main md fetch args fs).result = Except.ok s2 →
        k = files.length)) ∧
    (∀ v m u, Event.downloadCall v m u ∈ (Download.main md fetch args fs).events →
      v = ver ∧ m = args.mirror_url) ∧
    (∃ tail, (Download.main md fetch args fs).events
        = reqs.map Event.metadataRequest ++ tail ∧
      ∀ u, Event.metadataRequest u ∈ tail → False) := by
  rw [main_eq_of_listing_ok md fetch args fs ver files reqs hg]
  dsimp only
  refine ⟨?_, ?_, ?_⟩
  · cases hres : (downloadLoop fetch args.dump_name ver args.job_name args.mirror_url
        args.out_dir (tempDirPath args.out_dir) files fs Summary.init).res with
    | error e =>
      obtain ⟨k, hk, cause, he, hcalls⟩ := downloadLoop_error_shape fetch args.dump_name
        ver args.job_name args.mirror_url args.out_dir (tempDirPath args.out_dir)
        files fs Summary.init e hres
      refine ⟨k + 1, hk, ?_, ?_⟩
      · rw [List.filter_append, List.filter_append, List.filter_append,
          filter_isDownloadCall_map_metadataRequest, hcalls]
        simp [Event.isDownloadCall]
      · intro s2 hs2
        exact absurd hs2 (by simp)
    | ok s2 =>
      obtain ⟨_, _, hcalls⟩ := downloadLoop_ok_shape fetch args.dump_name ver
        args.job_name args.mirror_url args.out_dir (tempDirPath args.out_dir)
        files fs Summary.init s2 hres
      refine ⟨files.length, Nat.le.refl, ?_, fun _ _ => rfl⟩
      rw [List.filter_append, List.filter_append, List.filter_append,
        filter_isDownloadCall_map_metadataRequest, hcalls, List.take_length]
      simp [Event.isDownloadCall]
  · intro v m u hmem
    rcases List.mem_append.mp hmem with hmem | htail
    · rcases List.mem_append.mp hmem with hmem | hloop
      · rcases List.mem_append.mp hmem with hmd | hcr
        · obtain ⟨x, _, heq⟩ := List.mem_map.mp hmd
          exact absurd heq (by simp)
        · rcases List.mem_cons.mp hcr with heq | habs
          · exact absurd heq (by simp)
          · exact absurd habs (by simp)
      · rcases downloadLoop_events_mem fetch args.dump_name ver args.job_name
            args.mirror_url args.out_dir (tempDirPath args.out_dir) files fs
            Summary.init _ hloop with ⟨u0, heq⟩ | ⟨frag, heq⟩ | ⟨op, heq⟩
        · injection heq with h1 h2 h3
          exact ⟨h1, h2⟩
        · exact absurd heq (by simp)
        · exact absurd heq (by simp)
    · rcases hres : (downloadLoop fetch args.dump_name ver args.job_name
          args.mirror_url args.out_dir (tempDirPath args.out_dir) files fs
          Summary.init).res with e | s2
      all_goals rw [hres] at htail
      all_goals dsimp only at htail
      · rcases List.mem_cons.mp htail with heq | habs
        · exact absurd heq (by simp)
        · exact absurd habs (by simp)
      · rcases List.mem_cons.mp htail with heq | hr
        · exact absurd heq (by simp)
        · rcases List.mem_cons.mp hr with heq | habs
          · exact absurd heq (by simp)
          · exact absurd habs (by simp)
  · refine ⟨Event.createTempDir (tempDirPath args.out_dir) ::
      ((downloadLoop fetch args.dump_name ver args.job_name args.mirror_url
          args.out_dir (tempDirPath args.out_dir) files fs Summary.init).events
        ++ (match (downloadLoop fetch args.dump_name ver args.job_name
              args.mirror_url args.out_dir (tempDirPath args.out_dir) files fs
              Summary.init).res with
            | Except.ok s =>
              [Event.disposeTempDir (tempDirPath args.out_dir) args.keep_temp_dir,
               Event.reportSummary s]
            | Except.error _ =>
              [Event.disposeTempDir (tempDirPath args.out_dir) args.keep_temp_dir])), ?_, ?_⟩
    · simp
    · intro u hu
      rcases List.mem_cons.mp hu with heq | hu2
      · exact absurd heq (by simp)
      · rcases List.mem_append.mp hu2 with hloop | htail
        · rcases downloadLoop_events_mem fetch args.dump_name ver args.job_name
              args.mirror_url args.out_dir (tempDirPath args.out_dir) files fs
              Summary.init _ hloop with ⟨u0, heq⟩ | ⟨frag, heq⟩ | ⟨op, heq⟩ <;>
            exact absurd heq (by simp)
        · rcases hres : (downloadLoop fetch args.dump_name ver args.job_name
              args.mirror_url args.out_dir (tempDirPath args.out_dir) files fs
              Summary.init).res with e | s2
          all_goals rw [hres] at htail
          all_goals dsimp only at htail
          · rcases List.mem_cons.mp htail with heq | habs
            · exact absurd heq (by simp)
            · exact absurd habs (by simp)
          · rcases List.mem_cons.mp htail with heq | hr
            · exact absurd heq (by simp)
            · rcases List.mem_cons.mp hr with heq | habs
              · exact absurd heq (by simp)
              · exact absurd habs (by simp)

/-- Witness for C9: the successful three-file run invokes the downloader
exactly three times, in listing order, each time with the one resolved
version and the configured mirror URL. -/
theorem spec_c9_resolve_once_sequential_witness :
    (Download.main mdW fetchW argsW fsW).events.filter Event.isDownloadCall
      = [Event.downloadCall (Version.mk "20230301") "https://m" "f1",
         Event.downloadCall (Version.mk "20230301") "https://m" "f2",
         Event.downloadCall (Version.mk "20230301") "https://m" "f3"] := by
  obtain ⟨⟨k, hk, hcalls, hcomplete⟩, _, _⟩ :=
    spec_c9_resolve_once_sequential mdW fetchW argsW fsW _ _ _ rfl
  have hk3 := hcomplete (Summary.mk 2 500 1 100) rfl
  subst hk3
  rw [hcalls]
  rfl

/-- Every metadata request `get_file_infos` issues targets the canonical
host. -/
theorem get_file_infos_requests_canonical (md : Metadata) (dump : String)
    (spec : VersionSpec) (job : String) (filter : Option (String → Bool)) :
    ∀ u ∈ (get_file_infos md dump spec job filter).2,
      ∃ rest, u = canonicalHost ++ "/" ++ rest := by
  intro u hu
  unfold get_file_infos resolve at hu
  cases spec with
  | Version v =>
    dsimp only at hu
    cases hl : md.listing v job with
    | error e =>
      rw [hl] at hu
      dsimp only at hu
      simp only [List.nil_append, List.mem_singleton] at hu
      subst hu
      exact ⟨dump ++ "/" ++ (v.val ++ "/dumpstatus.json"), by
        simp [String.append_assoc]⟩
    | ok fls =>
      rw [hl] at hu
      dsimp only at hu
      simp only [List.nil_append, List.mem_singleton] at hu
      subst hu
      exact ⟨dump ++ "/" ++ (v.val ++ "/dumpstatus.json"), by
        simp [String.append_assoc]⟩
  | Latest =>
    cases hlat : md.latest with
    | error e =>
      rw [hlat] at hu
      dsimp only at hu
      simp only [List.mem_singleton] at hu
      subst hu
      exact ⟨dump ++ "/", by simp [String.append_assoc]⟩
    | ok v =>
      rw [hlat] at hu
      dsimp only at hu
      cases hl : md.listing v job with
      | error e =>
        rw [hl] at hu
        dsimp only at hu
        simp only [List.mem_append, List.mem_singleton] at hu
        rcases hu with hu | hu
        · subst hu
          exact ⟨dump ++ "/", by simp [String.append_assoc]⟩
        · subst hu
          exact ⟨dump ++ "/" ++ (v.val ++ "/dumpstatus.json"), by
            simp [String.append_assoc]⟩
      | ok fls =>
        rw [hl] at hu
        dsimp only at hu
        simp only [List.mem_append, List.mem_singleton] at hu
        rcases hu with hu | hu
        · subst hu
          exact ⟨dump ++ "/", by simp [String.append_assoc]⟩
        · subst hu
          exact ⟨dump ++ "/" ++ (v.val ++ "/dumpstatus.json"), by
            simp [String.append_assoc]⟩

/-- Classification of every event a run can emit: metadata requests target
the canonical host, download invocations carry the configured mirror URL,
file requests target the mirror URL, and the remaining events are staging
creation, filesystem operations, staging disposal and the summary
report. -/
theorem main_events_mem (md : Metadata) (fetch : String → FetchResult)
    (args : Args) (fs : Fs) :
    ∀ e, e ∈ (Download.main md fetch args fs).events →
      (∃ u, e = Event.metadataRequest u ∧ ∃ rest, u = canonicalHost ++ "/" ++ rest) ∨
      (∃ p, e = Event.createTempDir p) ∨
      (∃ v m u, e = Event.downloadCall v m u ∧ m = args.mirror_url) ∨
      (∃ frag, e = Event.fileRequest (args.mirror_url ++ "/" ++ frag)) ∨
      (∃ op, e = Event.fsOp op) ∨
      (∃ p b, e = Event.disposeTempDir p b) ∨
      (∃ s, e = Event.reportSummary s) := by
  rcases hg : get_file_infos md args.dump_name args.version_spec args.job_name
    args.file_name_regex with ⟨gr, reqs⟩
  have hreqs : ∀ u ∈ reqs, ∃ rest, u = canonicalHost ++ "/" ++ rest := by
    intro u hu
    have hc := get_file_infos_requests_canonical md args.dump_name args.version_spec
      args.job_name args.file_name_regex u
    rw [hg] at hc
    exact hc hu
  cases gr with
  | error e0 =>
    rw [main_eq_of_listing_error md fetch args fs e0 reqs hg]
    dsimp only
    intro e he
    obtain ⟨x, hx, heq⟩ := List.mem_map.mp he
    exact Or.inl ⟨x, heq.symm, hreqs x hx⟩
  | ok vf =>
    obtain ⟨ver, files⟩ := vf
    rw [main_eq_of_listing_ok md fetch args fs ver files reqs hg]
    dsimp only
    intro e he
    rcases List.mem_append.mp he with he2 | htail
    · rcases List.mem_append.mp he2 with he3 | hloop
      · rcases List.mem_append.mp he3 with hmd | hcr
        · obtain ⟨x, hx, heq⟩ := List.mem_map.mp hmd
          exact Or.inl ⟨x, heq.symm, hreqs x hx⟩
        · rcases List.mem_cons.mp hcr with heq | habs
          · exact Or.inr (Or.inl ⟨tempDirPath args.out_dir, heq⟩)
          · exact absurd habs (by simp)
      · rcases downloadLoop_events_mem fetch args.dump_name ver args.job_name
            args.mirror_url args.out_dir (tempDirPath args.out_dir) files fs
            Summary.init _ hloop with ⟨u0, heq⟩ | ⟨frag, heq⟩ | ⟨op, heq⟩
        · exact Or.inr (Or.inr (Or.inl ⟨ver, args.mirror_url, u0, heq, rfl⟩))
        · exact Or.inr (Or.inr (Or.inr (Or.inl ⟨frag, heq⟩)))
        · exact Or.inr (Or.inr (Or.inr (Or.inr (Or.inl ⟨op, heq⟩))))
    · rcases hres : (downloadLoop fetch args.dump_name ver args.job_name
          args.mirror_url args.out_dir (tempDirPath args.out_dir) files fs
          Summary.init).res with e0 | s0
      all_goals rw [hres] at htail
      all_goals dsimp only at htail
      · rcases List.mem_cons.mp htail with heq | habs
        · exact Or.inr (Or.inr (Or.inr (Or.inr (Or.inr (Or.inl
            ⟨tempDirPath args.out_dir, args.keep_temp_dir, heq⟩)))))
        · exact absurd habs (by simp)
      · rcases List.mem_cons.mp htail with heq | hr
        · exact Or.inr (Or.inr (Or.inr (Or.inr (Or.inr (Or.inl
            ⟨tempDirPath args.out_dir, args.keep_temp_dir, heq⟩)))))
        · rcases List.mem_cons.mp hr with heq | habs
          · exact Or.inr (Or.inr (Or.inr (Or.inr (Or.inr (Or.inr ⟨s0, heq⟩)))))
          · exact absurd habs (by simp)

/-- C5: in every run, every metadata or version-resolution request targets
the canonical host — also when a mirror URL is configured, as it always is
for this command — and every job-file byte request targets the configured
mirror host (the canonical host exactly when the mirror URL is set to
it). -/
theorem spec_c5_canonical_metadata_mirror_files (md : Metadata)
    (fetch : String → FetchResult) (args : Args) (fs : Fs) :
    (∀ u, Event.metadataRequest u ∈ (Download.main md fetch args fs).events →
      ∃ rest, u = canonicalHost ++ "/" ++ rest) ∧
    (∀ u, Event.fileRequest u ∈ (Download.main md fetch args fs).events →
      ∃ frag, u = args.mirror_url ++ "/" ++ frag) := by
  constructor
  · intro u hu
    rcases main_events_mem md fetch args fs _ hu with
      ⟨x, heq, hc⟩ | ⟨p, heq⟩ | ⟨v, m, x, heq, _⟩ | ⟨frag, heq⟩ | ⟨op, heq⟩ |
      ⟨p, b, heq⟩ | ⟨s0, heq⟩
    · injection heq with h
      subst h
      exact hc
    all_goals exact absurd heq (by simp)
  · intro u hu
    rcases main_events_mem md fetch args fs _ hu with
      ⟨x, heq, hc⟩ | ⟨p, heq⟩ | ⟨v, m, x, heq, _⟩ | ⟨frag, heq⟩ | ⟨op, heq⟩ |
      ⟨p, b, heq⟩ | ⟨s0, heq⟩
    · exact absurd heq (by simp)
    · exact absurd heq (by simp)
    · exact absurd heq (by simp)
    · injection heq with h
      exact ⟨frag, h⟩
    all_goals exact absurd heq (by simp)

/-- Witness for C5: the request that fetched `f2` in the three-file run
targets the mirror host. -/
theorem spec_c5_canonical_metadata_mirror_files_witness :
    ∃ frag, "https://m/f2" = "https://m" ++ "/" ++ frag :=
  (spec_c5_canonical_metadata_mirror_files mdW fetchW argsW fsW).2
    "https://m/f2" (by decide)

/-- C10: the mirror URL is a required input with no default — parsing
fails when neither the `--mirror-url` flag nor the `WMD_MIRROR_URL`
environment variable is present, and any accepted value comes from one of
the two — and in every run each downloader invocation receives the
configured mirror URL and each job-file byte request is built from it, so
no execution path fetches job-file bytes without a supplied mirror URL. -/
theorem spec_c10_mirror_url_required :
    parseMirrorUrl none none = Except.error ArgError.MissingRequiredArgument ∧
    (∀ (u : String) (env : Option String),
      parseMirrorUrl (some u) env = Except.ok u) ∧
    (∀ u : String, parseMirrorUrl none (some u) = Except.ok u) ∧
    (∀ (flag env : Option String) (u : String),
      parseMirrorUrl flag env = Except.ok u → flag = some u ∨ env = some u) ∧
    (∀ (md : Metadata) (fetch : String → FetchResult) (args : Args) (fs : Fs)
        (v : Version) (m u : String),
      Event.downloadCall v m u ∈ (Download.main md fetch args fs).events →
        m = args.mirror_url) ∧
    (∀ (md : Metadata) (fetch : String → FetchResult) (args : Args) (fs : Fs)
        (u : String),
      Event.fileRequest u ∈ (Download.main md fetch args fs).events →
        ∃ frag, u = args.mirror_url ++ "/" ++ frag) := by
  refine ⟨rfl, fun u env => rfl, fun u => rfl, ?_, ?_, ?_⟩
  · intro flag env u h
    cases flag with
    | some s =>
      left
      injection h with h2
      rw [h2]
    | none =>
      cases env with
      | some s =>
        right
        injection h with h2
        rw [h2]
      | none =>
        exact absurd h (by simp [parseMirrorUrl])
  · intro md fetch args fs v m u hmem
    rcases main_events_mem md fetch args fs _ hmem with
      ⟨x, heq, hc⟩ | ⟨p, heq⟩ | ⟨v2, m2, x, heq, hm⟩ | ⟨frag, heq⟩ | ⟨op, heq⟩ |
      ⟨p, b, heq⟩ | ⟨s0, heq⟩
    · exact absurd heq (by simp)
    · exact absurd heq (by simp)
    · injection heq with h1 h2 h3
      rw [h2, hm]
    all_goals exact absurd heq (by simp)
  · intro md fetch args fs u hmem
    rcases main_events_mem md fetch args fs _ hmem with
      ⟨x, heq, hc⟩ | ⟨p, heq⟩ | ⟨v2, m2, x, heq, hm⟩ | ⟨frag, heq⟩ | ⟨op, heq⟩ |
      ⟨p, b, heq⟩ | ⟨s0, heq⟩
    · exact absurd heq (by simp)
    · exact absurd heq (by simp)
    · exact absurd heq (by simp)
    · injection heq with h
      exact ⟨frag, h⟩
    all_goals exact absurd heq (by simp)

/-- Witness for C10: a mirror URL accepted by parsing came from the flag
or the environment variable. -/
theorem spec_c10_mirror_url_required_witness :
    some "https://m" = some "https://m" ∨
      (none : Option String) = some "https://m" :=
  spec_c10_mirror_url_required.2.2.2.1 (some "https://m") none "https://m" rfl

/-- C8: once the listing succeeded (so the staging directory was created),
every run — aborted or not — emits exactly one staging-disposal event,
all download activity precedes it, the staging directory survives the run
exactly when retention was requested, disposal with retention off removes
the directory's entire contents, and disposal with retention on leaves
the filesystem intact. -/
theorem spec_c8_staging_disposed_once (md : Metadata)
    (fetch : String → FetchResult) (args : Args) (fs : Fs) (ver : Version)
    (files : List (String × FileMeta)) (reqs : List String)
    (hg : get_file_infos md args.dump_name args.version_spec args.job_name
      args.file_name_regex = (Except.ok (ver, files), reqs)) :
    (Download.main md fetch args fs).events.filter Event.isDispose
      = [Event.disposeTempDir (tempDirPath args.out_dir) args.keep_temp_dir] ∧
    (∃ pre post, (Download.main md fetch args fs).events
        = pre ++ Event.disposeTempDir (tempDirPath args.out_dir)
            args.keep_temp_dir :: post ∧
      ∀ ev ∈ post, Event.isDownloadCall ev = false ∧
        Event.isFileRequest ev = false) ∧
    (Download.main md fetch args fs).tempDirExists = args.keep_temp_dir ∧
    (args.keep_temp_dir = false → ∀ q,
      List.isPrefixOf (tempDirPath args.out_dir).data q.data = true →
      (Download.main md fetch args fs).fs q = none) ∧
    (∀ (p : String) (fs2 : Fs), TempDir.dispose p true fs2 = fs2) := by
  rw [main_eq_of_listing_ok md fetch args fs ver files reqs hg]
  dsimp only
  have hmd : (reqs.map Event.metadataRequest).filter Event.isDispose = [] := by
    rw [List.filter_eq_nil_iff]
    intro e he
    obtain ⟨x, _, rfl⟩ := List.mem_map.mp he
    simp [Event.isDispose]
  refine ⟨?_, ?_, rfl, ?_, ?_⟩
  · cases hres : (downloadLoop fetch args.dump_name ver args.job_name
        args.mirror_url args.out_dir (tempDirPath args.out_dir) files fs
        Summary.init).res with
    | error e0 =>
      rw [List.filter_append, List.filter_append, List.filter_append, hmd,
        downloadLoop_filter_isDispose]
      simp [Event.isDispose]
    | ok s0 =>
      rw [List.filter_append, List.filter_append, List.filter_append, hmd,
        downloadLoop_filter_isDispose]
      simp [Event.isDispose]
  · cases hres : (downloadLoop fetch args.dump_name ver args.job_name
        args.mirror_url args.out_dir (tempDirPath args.out_dir) files fs
        Summary.init).res with
    | error e0 =>
      refine ⟨reqs.map Event.metadataRequest
        ++ [Event.createTempDir (tempDirPath args.out_dir)]
        ++ (downloadLoop fetch args.dump_name ver args.job_name args.mirror_url
            args.out_dir (tempDirPath args.out_dir) files fs Summary.init).events,
        [], ?_, ?_⟩
      · simp
      · intro ev hev
        exact absurd hev (by simp)
    | ok s0 =>
      refine ⟨reqs.map Event.metadataRequest
        ++ [Event.createTempDir (tempDirPath args.out_dir)]
        ++ (downloadLoop fetch args.dump_name ver args.job_name args.mirror_url
            args.out_dir (tempDirPath args.out_dir) files fs Summary.init).events,
        [Event.reportSummary s0], ?_, ?_⟩
      · simp
      · intro ev hev
        rcases List.mem_singleton.mp hev with rfl
        exact ⟨rfl, rfl⟩
  · intro hkeep q hq
    rw [hkeep]
    simp [TempDir.dispose, hq]
  · intro p fs2
    simp [TempDir.dispose]

/-- Witness for C8: after the three-file run with retention off, the
staged copy of `f2` inside the staging directory is gone. -/
theorem spec_c8_staging_disposed_once_witness :
    (Download.main mdW fetchW argsW fsW).fs (stagedPath (tempDirPath "out") "f2")
      = none :=
  (spec_c8_staging_disposed_once mdW fetchW argsW fsW _ _ _ rfl).2.2.2.1 rfl
    (stagedPath (tempDirPath "out") "f2") (by decide)

/-- When the mirror serves every listed file at its expected size, the
per-file loop succeeds, leaves every file complete at its final path, and
touches no other path (given that final paths are pairwise distinct and
staging paths collide with no final path). -/
theorem downloadLoop_installs (fetch : String → FetchResult) (dump : String)
    (ver : Version) (job : String) (mirrorUrl outDir tempDir : String) :
    ∀ (files : List (String × FileMeta)) (fs : Fs) (s : Summary),
      (∀ p ∈ files, fetch (mirrorUrl ++ "/" ++ p.2.url) = FetchResult.ok p.2.size) →
      List.Pairwise (fun p q =>
        finalPath outDir dump ver.val job p.2.url
          ≠ finalPath outDir dump ver.val job q.2.url) files →
      (∀ p ∈ files, ∀ q ∈ files,
        stagedPath tempDir p.2.url ≠ finalPath outDir dump ver.val job q.2.url) →
      (∃ s2, (downloadLoop fetch dump ver job mirrorUrl outDir tempDir files fs s).res
        = Except.ok s2) ∧
      (∀ p ∈ files,
        (downloadLoop fetch dump ver job mirrorUrl outDir tempDir files fs s).fs
          (finalPath outDir dump ver.val job p.2.url) = some p.2.size) ∧
      (∀ q2 : String,
        (∀ p ∈ files, q2 ≠ finalPath outDir dump ver.val job p.2.url ∧
          q2 ≠ stagedPath tempDir p.2.url) →
        (downloadLoop fetch dump ver job mirrorUrl outDir tempDir files fs s).fs q2
          = fs q2) := by
  intro files
  induction files with
  | nil =>
    intro fs s _ _ _
    exact ⟨⟨s, rfl⟩, by simp, fun q2 _ => rfl⟩
  | cons hd tl ih =>
    intro fs s hserver hnodup hsf
    obtain ⟨name, fm⟩ := hd
    have hf : fetch (mirrorUrl ++ "/" ++ fm.url) = FetchResult.ok fm.size :=
      hserver (name, fm) (List.mem_cons_self _ _)
    have hhd : ∀ q ∈ tl, finalPath outDir dump ver.val job fm.url
        ≠ finalPath outDir dump ver.val job q.2.url :=
      (List.pairwise_cons.mp hnodup).1
    have htl : List.Pairwise (fun p q =>
        finalPath outDir dump ver.val job p.2.url
          ≠ finalPath outDir dump ver.val job q.2.url) tl :=
      (List.pairwise_cons.mp hnodup).2
    have hserver2 : ∀ p ∈ tl, fetch (mirrorUrl ++ "/" ++ p.2.url)
        = FetchResult.ok p.2.size :=
      fun p hp => hserver p (List.mem_cons_of_mem _ hp)
    have hsf2 : ∀ p ∈ tl, ∀ q ∈ tl, stagedPath tempDir p.2.url
        ≠ finalPath outDir dump ver.val job q.2.url :=
      fun p hp q hq =>
        hsf p (List.mem_cons_of_mem _ hp) q (List.mem_cons_of_mem _ hq)
    have hfpcond : ∀ p ∈ tl,
        finalPath outDir dump ver.val job fm.url
            ≠ finalPath outDir dump ver.val job p.2.url ∧
          finalPath outDir dump ver.val job fm.url ≠ stagedPath tempDir p.2.url :=
      fun p hp => ⟨hhd p hp,
        (hsf p (List.mem_cons_of_mem _ hp) (name, fm) (List.mem_cons_self _ _)).symm⟩
    by_cases hex : fs (finalPath outDir dump ver.val job fm.url) = some fm.size
    · have hdl := download_job_file_existing fetch dump ver job mirrorUrl fm
        outDir tempDir fs hex
      simp only [downloadLoop, hdl]
      simp only [applyOps]
      obtain ⟨⟨s2, hres⟩, hinst, hframe⟩ := ih fs
        (foldOutcome s
          { kind := DownloadJobFileResultKind.ExistingOk, len := fm.size })
        hserver2 htl hsf2
      rw [hres]
      refine ⟨⟨s2, rfl⟩, ?_, ?_⟩
      · intro p hp
        rcases List.mem_cons.mp hp with heq | hp2
        · subst heq
          rw [hframe (finalPath outDir dump ver.val job fm.url) hfpcond]
          exact hex
        · exact hinst p hp2
      · intro q2 hq2
        exact hframe q2 (fun p hp => hq2 p (List.mem_cons_of_mem _ hp))
    · have hdl := download_job_file_fetch_ok fetch dump ver job mirrorUrl fm
        outDir tempDir fs fm.size hex hf
      simp only [downloadLoop, hdl]
      rw [applyOps_write_rename]
      obtain ⟨⟨s2, hres⟩, hinst, hframe⟩ := ih
        (fun q => if q = finalPath outDir dump ver.val job fm.url then some fm.size
          else if q = stagedPath tempDir fm.url then none else fs q)
        (foldOutcome s
          { kind := DownloadJobFileResultKind.DownloadOk, len := fm.size })
        hserver2 htl hsf2
      rw [hres]
      refine ⟨⟨s2, rfl⟩, ?_, ?_⟩
      · intro p hp
        rcases List.mem_cons.mp hp with heq | hp2
        · subst heq
          rw [hframe (finalPath outDir dump ver.val job fm.url) hfpcond]
          simp
        · exact hinst p hp2
      · intro q2 hq2
        rw [hframe q2 (fun p hp => hq2 p (List.mem_cons_of_mem _ hp))]
        have hq2hd := hq2 (name, fm) (List.mem_cons_self _ _)
        simp [hq2hd.1, hq2hd.2]

/-- When every listed file is already complete at its final path, the
per-file loop succeeds with an `ExistingOk` outcome of the expected size
for every file, performs no filesystem operation, issues no HTTP request,
and leaves the filesystem untouched. -/
theorem downloadLoop_all_existing (fetch : String → FetchResult) (dump : String)
    (ver : Version) (job : String) (mirrorUrl outDir tempDir : String) :
    ∀ (files : List (String × FileMeta)) (fs : Fs) (s : Summary),
      (∀ p ∈ files, fs (finalPath outDir dump ver.val job p.2.url) = some p.2.size) →
      (∃ s2, (downloadLoop fetch dump ver job mirrorUrl outDir tempDir files fs s).res
        = Except.ok s2) ∧
      (downloadLoop fetch dump ver job mirrorUrl outDir tempDir files fs s).outcomes
        = files.map (fun p =>
            DownloadJobFileResult.mk DownloadJobFileResultKind.ExistingOk p.2.size) ∧
      (downloadLoop fetch dump ver job mirrorUrl outDir tempDir files fs s).events
        = files.map (fun p => Event.downloadCall ver mirrorUrl p.2.url) ∧
      (downloadLoop fetch dump ver job mirrorUrl outDir tempDir files fs s).fs = fs := by
  intro files
  induction files with
  | nil =>
    intro fs s _
    exact ⟨⟨s, rfl⟩, rfl, rfl, rfl⟩
  | cons hd tl ih =>
    intro fs s hall
    obtain ⟨name, fm⟩ := hd
    have hex : fs (finalPath outDir dump ver.val job fm.url) = some fm.size :=
      hall (name, fm) (List.mem_cons_self _ _)
    have hdl := download_job_file_existing fetch dump ver job mirrorUrl fm
      outDir tempDir fs hex
    simp only [downloadLoop, hdl]
    simp only [applyOps]
    obtain ⟨⟨s2, hres⟩, houts, hevs, hfs⟩ := ih fs
      (foldOutcome s { kind := DownloadJobFileResultKind.ExistingOk, len := fm.size })
      (fun p hp => hall p (List.mem_cons_of_mem _ hp))
    rw [hres]
    refine ⟨⟨s2, rfl⟩, ?_, ?_, hfs⟩
    · simp [houts]
    · simp [hevs]

/-- Disposal of the staging directory does not touch paths outside it. -/
theorem dispose_preserves (path : String) (keep : Bool) (fs : Fs) (q : String)
    (h : List.isPrefixOf path.data q.data = false) :
    TempDir.dispose path keep fs q = fs q := by
  cases keep <;> simp [TempDir.dispose, h]

/-- Metadata requests are not file-byte request events. -/
theorem filter_isFileRequest_map_metadataRequest (us : List String) :
    (us.map Event.metadataRequest).filter Event.isFileRequest = [] := by
  rw [List.filter_eq_nil_iff]
  intro e he
  obtain ⟨u, _, rfl⟩ := List.mem_map.mp he
  simp [Event.isFileRequest]

/-- Download-invocation events are not file-byte request events. -/
theorem filter_isFileRequest_map_downloadCall (ver : Version) (m : String)
    (files : List (String × FileMeta)) :
    ((files.map (fun p => Event.downloadCall ver m p.2.url)).filter
      Event.isFileRequest) = [] := by
  rw [List.filter_eq_nil_iff]
  intro e he
  obtain ⟨p, _, rfl⟩ := List.mem_map.mp he
  simp [Event.isFileRequest]

/-- C2: a file already complete at its final path is skipped — the
downloader returns `ExistingOk` with the existing size, performs no
filesystem operation and issues no HTTP request — and consequently, when
the mirror serves every listed file at its expected size, a run followed
by a second run against the unchanged manifest gives, on the second run,
an `ExistingOk` outcome for every listed file and no file-byte HTTP
request at all (zero additional bytes transferred). -/
theorem spec_c2_idempotent_skip_and_rerun :
    (∀ (fetch : String → FetchResult) (dump : String) (ver : Version)
        (job : String) (mirrorUrl : String) (file : FileMeta)
        (outDir tempDir : String) (fs : Fs),
      fs (finalPath outDir dump ver.val job file.url) = some file.size →
      download_job_file fetch dump ver job mirrorUrl file outDir tempDir fs =
        { res := Except.ok
            (DownloadJobFileResult.mk DownloadJobFileResultKind.ExistingOk file.size),
          ops := [], requests := [] }) ∧
    (∀ (md : Metadata) (fetch : String → FetchResult) (args : Args) (fs : Fs)
        (ver : Version) (files : List (String × FileMeta)) (reqs : List String),
      get_file_infos md args.dump_name args.version_spec args.job_name
        args.file_name_regex = (Except.ok (ver, files), reqs) →
      (∀ p ∈ files, fetch (args.mirror_url ++ "/" ++ p.2.url)
        = FetchResult.ok p.2.size) →
      List.Pairwise (fun p q =>
        finalPath args.out_dir args.dump_name ver.val args.job_name p.2.url
          ≠ finalPath args.out_dir args.dump_name ver.val args.job_name q.2.url)
        files →
      (∀ p ∈ files, ∀ q ∈ files,
        stagedPath (tempDirPath args.out_dir) p.2.url
          ≠ finalPath args.out_dir args.dump_name ver.val args.job_name q.2.url) →
      (∀ p ∈ files, List.isPrefixOf (tempDirPath args.out_dir).data
        (finalPath args.out_dir args.dump_name ver.val args.job_name p.2.url).data
          = false) →
      (∃ s1, (Download.main md fetch args fs).result = Except.ok s1) ∧
      (Download.main md fetch args (Download.main md fetch args fs).fs).outcomes
        = files.map (fun p =>
            DownloadJobFileResult.mk DownloadJobFileResultKind.ExistingOk p.2.size) ∧
      (Download.main md fetch args (Download.main md fetch args fs).fs).events.filter
        Event.isFileRequest = []) := by
  constructor
  · intro fetch dump ver job mirrorUrl file outDir tempDir fs hex
    exact download_job_file_existing fetch dump ver job mirrorUrl file outDir
      tempDir fs hex
  · intro md fetch args fs ver files reqs hg hserver hnodup hsf htemp
    obtain ⟨⟨s1, hres1⟩, hinst, hframe⟩ := downloadLoop_installs fetch
      args.dump_name ver args.job_name args.mirror_url args.out_dir
      (tempDirPath args.out_dir) files fs Summary.init hserver hnodup hsf
    rw [main_eq_of_listing_ok md fetch args fs ver files reqs hg]
    dsimp only
    have hall : ∀ p ∈ files,
        TempDir.dispose (tempDirPath args.out_dir) args.keep_temp_dir
          (downloadLoop fetch args.dump_name ver args.job_name args.mirror_url
            args.out_dir (tempDirPath args.out_dir) files fs Summary.init).fs
          (finalPath args.out_dir args.dump_name ver.val args.job_name p.2.url)
          = some p.2.size := by
      intro p hp
      rw [dispose_preserves _ _ _ _ (htemp p hp)]
      exact hinst p hp
    obtain ⟨⟨s2, hres2⟩, houts, hevs, hfs2⟩ := downloadLoop_all_existing fetch
      args.dump_name ver args.job_name args.mirror_url args.out_dir
      (tempDirPath args.out_dir) files
      (TempDir.dispose (tempDirPath args.out_dir) args.keep_temp_dir
        (downloadLoop fetch args.dump_name ver args.job_name args.mirror_url
          args.out_dir (tempDirPath args.out_dir) files fs Summary.init).fs)
      Summary.init hall
    rw [main_eq_of_listing_ok md fetch args
      (TempDir.dispose (tempDirPath args.out_dir) args.keep_temp_dir
        (downloadLoop fetch args.dump_name ver args.job_name args.mirror_url
          args.out_dir (tempDirPath args.out_dir) files fs Summary.init).fs)
      ver files reqs hg]
    dsimp only
    refine ⟨⟨s1, hres1⟩, houts, ?_⟩
    rw [hres2, hevs]
    dsimp only
    rw [List.filter_append, List.filter_append, List.filter_append,
      filter_isFileRequest_map_metadataRequest,
      filter_isFileRequest_map_downloadCall]
    simp [Event.isFileRequest]

/-- Witness for C2: after a first run from an empty filesystem over the
three-file listing, the second run yields an `ExistingOk` outcome of the
expected size for all three files. -/
theorem spec_c2_idempotent_skip_and_rerun_witness :
    (Download.main mdW fetchW argsW
        (Download.main mdW fetchW argsW fsEmptyW).fs).outcomes
      = [DownloadJobFileResult.mk DownloadJobFileResultKind.ExistingOk 100,
         DownloadJobFileResult.mk DownloadJobFileResultKind.ExistingOk 200,
         DownloadJobFileResult.mk DownloadJobFileResultKind.ExistingOk 300] :=
  (spec_c2_idempotent_skip_and_rerun.2 mdW fetchW argsW fsEmptyW _ _ _
    rfl (by decide) (by decide) (by decide) (by decide)).2.1
